import Mathlib

/-!
Verification of the Swagger/OpenAPI 2.0 document generator of the corgi
repository (src/swagger/index.ts).

JavaScript values flowing through the generator (JSON-schema shapes,
generated parameter objects) are embedded as the inductive type JValue:
plain objects become ordered association lists of fields (JS objects have
unique keys and preserve string-key insertion order), arrays become lists,
and the distinguished value undefined is the constructor undefined.

The validation-library ("Joi") schema values are opaque to the generator:
it only ever (1) compares them by reference identity against the
definitions table, (2) feeds them to the external conversion library
JoiToJSONSchema, (3) reads describe().flags.presence, and (4) tests the
isJoi marker.  A schema value is therefore embedded as a record carrying
an object identity (oid, modelling JS reference identity of the object),
the isJoi marker, the JSON-schema shape the external converter would
produce for it, its own structural shape (used when it is a raw JSON
schema passed through), and the introspected presence flag.
-/

inductive JValue where
  | undefined
  | null
  | bool (b : Bool)
  | num (n : Int)
  | str (s : String)
  | arr (xs : List JValue)
  | obj (fields : List (String × JValue))

mutual

def JValue.beq : JValue → JValue → Bool
  | .undefined, .undefined => true
  | .null, .null => true
  | .bool a, .bool b => a == b
  | .num a, .num b => a == b
  | .str a, .str b => a == b
  | .arr xs, .arr ys => JValue.beqList xs ys
  | .obj fs, .obj gs => JValue.beqFields fs gs
  | _, _ => false

def JValue.beqList : List JValue → List JValue → Bool
  | [], [] => true
  | x :: xs, y :: ys => x.beq y && JValue.beqList xs ys
  | _, _ => false

def JValue.beqFields : List (String × JValue) → List (String × JValue) → Bool
  | [], [] => true
  | (k, v) :: fs, (l, w) :: gs => k == l && v.beq w && JValue.beqFields fs gs
  | _, _ => false

end

mutual

def JValue.beq_iff (a b : JValue) : a.beq b = true ↔ a = b := by
  cases a <;> cases b <;>
    simp only [JValue.beq, beq_iff_eq, Bool.and_eq_true, JValue.arr.injEq, JValue.obj.injEq,
      JValue.bool.injEq, JValue.num.injEq, JValue.str.injEq, reduceCtorEq] <;>
    first
      | rfl
      | simp
      | exact JValue.beqList_iff _ _
      | exact JValue.beqFields_iff _ _

def JValue.beqList_iff (xs ys : List JValue) : JValue.beqList xs ys = true ↔ xs = ys := by
  cases xs with
  | nil => cases ys <;> simp [JValue.beqList]
  | cons x xs =>
    cases ys with
    | nil => simp [JValue.beqList]
    | cons y ys =>
      simp only [JValue.beqList, Bool.and_eq_true, List.cons.injEq]
      exact and_congr (JValue.beq_iff x y) (JValue.beqList_iff xs ys)

def JValue.beqFields_iff (fs gs : List (String × JValue)) :
    JValue.beqFields fs gs = true ↔ fs = gs := by
  cases fs with
  | nil => cases gs <;> simp [JValue.beqFields]
  | cons f fs =>
    cases gs with
    | nil => simp [JValue.beqFields]
    | cons g gs =>
      obtain ⟨k, v⟩ := f
      obtain ⟨l, w⟩ := g
      simp only [JValue.beqFields, Bool.and_eq_true, List.cons.injEq, Prod.mk.injEq, beq_iff_eq]
      exact and_congr (and_congr Iff.rfl (JValue.beq_iff v w)) (JValue.beqFields_iff fs gs)

end

instance : DecidableEq JValue :=
  fun a b => decidable_of_iff (JValue.beq a b = true) (JValue.beq_iff a b)

/-- Models lodash _.isObject restricted to JSON-like values: true exactly for
arrays and plain objects (in full JS it is also true for functions and other
non-plain objects, which do not occur among the values the generator omits). -/
def JValue.isObjectLike : JValue → Bool
  | .arr _ => true
  | .obj _ => true
  | _ => false

/-- Models JS property read obj[k]: the value of the first (only) field named
k, or undefined when the key is absent or the receiver is not an object. -/
def getField (v : JValue) (k : String) : JValue :=
  match v with
  | .obj fs =>
    match fs.find? (fun p => p.1 == k) with
    | some p => p.2
    | none => .undefined
  | _ => .undefined

/-- Models JS property write obj[k] = v on an object's field list: an existing
key keeps its position and gets the new value, a new key is appended. -/
def setField (fs : List (String × JValue)) (k : String) (v : JValue) :
    List (String × JValue) :=
  match fs with
  | [] => [(k, v)]
  | f :: rest => if f.1 = k then (k, v) :: rest else f :: setField rest k v

/-- Field list of an object; non-objects contribute no fields.  (Object.assign
with a primitive source copies no own enumerable keys; the generator only ever
assigns translated schema objects.) -/
def fieldsOf : JValue → List (String × JValue)
  | .obj fs => fs
  | _ => []

/-- Models Object.assign(target, source): every own enumerable key of source is
written onto target in source iteration order. -/
def assignFields (target : List (String × JValue)) (source : JValue) :
    List (String × JValue) :=
  (fieldsOf source).foldl (fun acc p => setField acc p.1 p.2) target

mutual

/-- Embeds the inner omitFromObject of deepOmit (src/swagger/index.ts lines
16-26): lodash _.transform over the value.  For an object, every field whose
key is in the omit list is skipped and every kept field's value is recursed
into when _.isObject holds; for an array, _.transform accumulates into a fresh
array, its numeric indices never match the omit keys, and each element is
recursed into when _.isObject holds; for any other (primitive) input
_.transform yields a fresh empty accumulator object.  The primitive arm is
only ever reached at the top level, and the generator never applies deepOmit
to a primitive.  (The JS in-operator used for the key test also sees
Object.prototype member names through the prototype chain; schema shapes never
carry such keys, so the test is embedded as plain membership in the list.) -/
def omitV (ks : List String) : JValue → JValue
  | .obj fields => .obj (omitFields ks fields)
  | .arr xs => .arr (omitArr ks xs)
  | _ => .obj []

def omitFields (ks : List String) : List (String × JValue) → List (String × JValue)
  | [] => []
  | (k, v) :: rest =>
    if ks.contains k then omitFields ks rest
    else (k, if v.isObjectLike then omitV ks v else v) :: omitFields ks rest

def omitArr (ks : List String) : List JValue → List JValue
  | [] => []
  | v :: rest => (if v.isObjectLike then omitV ks v else v) :: omitArr ks rest

end

/-- Embeds deepOmit(obj, keysToOmit) of src/swagger/index.ts lines 13-29. -/
def deepOmit (obj : JValue) (keysToOmit : List String) : JValue :=
  omitV keysToOmit obj

/-- The fixed denylist used by JoiToSwaggerSchema and the parameter map at
src/swagger/index.ts lines 32 and 170. -/
def sanitizedKeys : List String :=
  ["additionalProperties", "patterns"]

/-- The sanitization pass of the spec: deepOmit with the fixed denylist. -/
def sanitize (x : JValue) : JValue :=
  deepOmit x sanitizedKeys

mutual

/-- Decides that no object anywhere inside the value (arrays included) has a
field whose key belongs to ks. -/
def bannedFreeV (ks : List String) : JValue → Bool
  | .obj fs => bannedFreeFields ks fs
  | .arr xs => bannedFreeArr ks xs
  | _ => true

def bannedFreeFields (ks : List String) : List (String × JValue) → Bool
  | [] => true
  | (k, v) :: rest => !ks.contains k && bannedFreeV ks v && bannedFreeFields ks rest

def bannedFreeArr (ks : List String) : List JValue → Bool
  | [] => true
  | v :: rest => bannedFreeV ks v && bannedFreeArr ks rest

end

/-- Embedding of an opaque schema value (Joi schema or raw JSON schema): oid
is the JS object identity used by the === comparison of convertToReference,
isJoi the marker read by asJoiSchema, converted the JSON-schema shape the
external conversion library produces for it, raw its own structural shape
(used when a raw JSON schema is passed through unchanged), and presence the
introspected describe().flags.presence value (none when the flags object or
the presence flag is absent). -/
structure SchemaVal where
  oid : Nat
  isJoi : Bool
  converted : JValue
  raw : JValue
  presence : Option String
deriving DecidableEq

/-- Modelled from the spec: the external schema-conversion capability
(JoiToJSONSchema, an external collaborator outside this core) that maps an
opaque validation-library schema to the equivalent JSON Schema vocabulary.
Its output is carried by the schema value itself. -/
def JoiToJSONSchema (s : SchemaVal) : JValue :=
  s.converted

/-- Embeds JoiToSwaggerSchema of src/swagger/index.ts lines 31-33. -/
def JoiToSwaggerSchema (s : SchemaVal) : JValue :=
  deepOmit (JoiToJSONSchema s) sanitizedKeys

/-- Embeds asJoiSchema of src/swagger/index.ts lines 35-41: the isJoi marker
decides whether the value is a validation-library schema. -/
def asJoiSchema (s : SchemaVal) : Option SchemaVal :=
  if s.isJoi then some s else none

/-- Embeds convertToReference of src/swagger/index.ts lines 94-107: scan the
definitions table in iteration order and return a $ref token for the first
entry whose value is the same object (===, embedded as oid equality) as the
schema; undefined when no entry is reference-identical. -/
def convertToReference (definitions : List (String × SchemaVal)) (schema : SchemaVal) :
    Option JValue :=
  match definitions.find? (fun p => p.2.oid == schema.oid) with
  | some p => some (.obj [("$ref", .str ("#/definitions/" ++ p.1))])
  | none => none

/-- Embeds the response-schema resolution of src/swagger/index.ts lines
175-188: try the reference first; otherwise translate a Joi schema, or pass a
raw JSON schema through unchanged. -/
def resolveResponseSchema (definitions : List (String × SchemaVal)) (s : SchemaVal) :
    JValue :=
  match convertToReference definitions s with
  | some ref => ref
  | none =>
    match asJoiSchema s with
    | some joi => JoiToSwaggerSchema joi
    | none => s.raw

inductive ParamLocation where
  | path
  | query
  | body
deriving DecidableEq

/-- A parameter declaration of a Route: the location tag and the opaque schema
(the field named def in the source; def is a reserved word here). -/
structure ParamDef where
  loc : ParamLocation
  schema : SchemaVal
deriving DecidableEq

/-- A declared response: optional schema and optional description. -/
structure ResponseDecl where
  schema : Option SchemaVal
  desc : Option String
deriving DecidableEq

/-- The seven HTTP methods recognized by the generator's switch. -/
inductive HttpMethod where
  | GET
  | PUT
  | POST
  | PATCH
  | DELETE
  | OPTIONS
  | HEAD
deriving DecidableEq

/-- The lowercased method string, as produced by method.toLowerCase() in
routesToOperationId. -/
def methodLower : HttpMethod → String
  | .GET => "get"
  | .PUT => "put"
  | .POST => "post"
  | .PATCH => "patch"
  | .DELETE => "delete"
  | .OPTIONS => "options"
  | .HEAD => "head"

/-- Embeds the method switch of src/swagger/index.ts lines 207-217 that picks
the operation key inside a path entry. -/
def methodSwitchKey : HttpMethod → String
  | .GET => "get"
  | .PUT => "put"
  | .POST => "post"
  | .PATCH => "patch"
  | .DELETE => "delete"
  | .OPTIONS => "options"
  | .HEAD => "head"

/-- Modelled from the spec: the terminal Route variant of the route tree (the
route/namespace declaration API lives outside src/).  A Route carries a path
segment, an HTTP method, a description, an optional declared operation
identifier, a keyed map of located parameter declarations, and an optional
mapping from status code to response declaration. -/
structure RouteData where
  path : String
  method : HttpMethod
  description : Option String
  operationId : Option String
  params : List (String × ParamDef)
  responses : Option (List (Nat × ResponseDecl))

/-- Modelled from the spec: a route-tree node is either a terminal Route or a
Namespace grouping children under a path segment with ambient path-parameter
schemas. -/
inductive RouteNode where
  | route (r : RouteData)
  | ns (path : String) (params : List (String × SchemaVal)) (children : List RouteNode)

/-- Path segment contributed by a node to the concatenated raw path. -/
def nodePath : RouteNode → String
  | .route r => r.path
  | .ns p _ _ => p

mutual

/-- Modelled from the spec: the route-tree flattener (flattenRoutes lives
outside src/), producing one chain per terminal Route in pre-order
depth-first traversal preserving child declaration order; a chain is the
ordered sequence of nodes from the root to one terminal Route. -/
def flattenRoute (parents : List RouteNode) : RouteNode → List (List RouteNode)
  | .route r => [parents ++ [.route r]]
  | .ns p ps children => flattenRouteList (parents ++ [.ns p ps children]) children

def flattenRouteList (parents : List RouteNode) : List RouteNode → List (List RouteNode)
  | [] => []
  | c :: rest => flattenRoute parents c ++ flattenRouteList parents rest

end

/-- Modelled from the spec: flatten a forest of root nodes into chains. -/
def flattenRoutes (routes : List RouteNode) : List (List RouteNode) :=
  flattenRouteList [] routes

mutual

/-- Number of terminal Route nodes reachable from a node. -/
def countRoutesNode : RouteNode → Nat
  | .route _ => 1
  | .ns _ _ children => countRoutesList children

def countRoutesList : List RouteNode → Nat
  | [] => 0
  | c :: rest => countRoutesNode c + countRoutesList rest

end

/-- Number of terminal Route nodes in a forest. -/
def countRoutes (routes : List RouteNode) : Nat :=
  countRoutesList routes

/-- The terminal Route of a chain: the generator reads
routes[routes.length - 1] and treats it as a Route; on flattener output the
last node is always a Route (theorem flattenRoute_endsRoute below). -/
def chainEnd (chain : List RouteNode) : Option RouteData :=
  match chain.getLast? with
  | some (.route r) => some r
  | _ => none

/-- JS \w character class: ASCII letters, digits and underscore. -/
def isWordChar (c : Char) : Bool :=
  c.isAlphanum || c == '_'

/-- Whether a character list starts with a word character. -/
def headIsWord : List Char → Bool
  | c :: _ => isWordChar c
  | [] => false

/-- Embeds path.replace of toSwaggerPath (src/swagger/index.ts lines 252-254):
the global regex rewrite of every colon-marker followed by one or more word
characters into the brace-delimited form, scanning left to right with the
maximal word run, expressed as a two-mode character scanner (inWord is true
while emitting the word run of a marker currently being rewritten). -/
def rewriteChars (inWord : Bool) : List Char → List Char
  | [] => if inWord then ['\x7d'] else []
  | c :: rest =>
    if inWord then
      if isWordChar c then c :: rewriteChars true rest
      else if c == ':' && headIsWord rest then '\x7d' :: '\x7b' :: rewriteChars true rest
      else '\x7d' :: c :: rewriteChars false rest
    else
      if c == ':' && headIsWord rest then '\x7b' :: rewriteChars true rest
      else c :: rewriteChars false rest

/-- Embeds toSwaggerPath of src/swagger/index.ts lines 252-254. -/
def toSwaggerPath (path : String) : String :=
  String.mk (rewriteChars false path.data)

/-- Decides that no colon in the character list is immediately followed by a
word character, i.e. no unrewritten parameter marker remains. -/
def noColonWord : List Char → Bool
  | [] => true
  | c :: rest => !(c == ':' && headIsWord rest) && noColonWord rest

/-- Embeds underscore.string capitalize with its default arguments:
charAt(0).toUpperCase() + slice(1).  Char.toUpper matches
String.toUpperCase on the ASCII segments that occur in method names and
route paths. -/
def capitalizeL : List Char → List Char
  | [] => []
  | c :: cs => c.toUpper :: cs

/-- Embeds JS "str".split("/") on the character level: the list of
slash-separated segments, with empty segments preserved (an empty input
yields one empty segment). -/
def splitOnSlash : List Char → List (List Char)
  | [] => [[]]
  | c :: rest =>
    if c == '/' then [] :: splitOnSlash rest
    else
      match splitOnSlash rest with
      | seg :: segs => (c :: seg) :: segs
      | [] => [[c]]

/-- Embeds the per-segment mapper of routesToOperationId (src/swagger/index.ts
lines 258-264): a leading colon is stripped before capitalizing. -/
def segmentCapitalize (seg : List Char) : List Char :=
  match seg with
  | ':' :: rest => capitalizeL rest
  | _ => capitalizeL seg

/-- Embeds routesToOperationId of src/swagger/index.ts lines 256-267. -/
def routesToOperationId (path : String) (method : HttpMethod) : String :=
  let operation := String.mk (((splitOnSlash path.data).map segmentCapitalize).flatten)
  String.mk (capitalizeL (methodLower method).data) ++ operation

/-- The location string written into a generated parameter's in field. -/
def locString : ParamLocation → String
  | .path => "path"
  | .query => "query"
  | .body => "body"

/-- The requiredness test of src/swagger/index.ts lines 149 and 163:
the presence flag read from describe().flags (with a missing flags object
treated as empty) must differ from "optional"; a schema lacking flags
(presence none) therefore counts as required. -/
def presenceRequired (s : SchemaVal) : Bool :=
  !(s.presence == some "optional")

/-- Embeds the Namespace-parameter construction of src/swagger/index.ts lines
125-135: always an in:"path" parameter, required, with type read from the
translated schema's type field. -/
def nsParam (name : String) (schema : SchemaVal) : JValue :=
  let joiSchema := JoiToSwaggerSchema schema
  .obj [("in", .str "path"), ("name", .str name), ("description", .str ""),
        ("type", getField joiSchema "type"), ("required", .bool true)]

/-- Embeds the Route-parameter construction of src/swagger/index.ts lines
137-167: a body parameter nests the translated schema under a schema field;
a path or query parameter merges the translated schema's fields into the
parameter object via Object.assign and then overwrites required (true for
path, the presence test for query). -/
def routeParam (name : String) (pd : ParamDef) : JValue :=
  match pd.loc with
  | .body =>
    .obj [("in", .str "body"), ("name", .str name), ("description", .str ""),
          ("schema", JoiToSwaggerSchema pd.schema),
          ("required", .bool (presenceRequired pd.schema))]
  | loc =>
    let joiSchema := JoiToSwaggerSchema pd.schema
    let base := assignFields
      [("in", .str (locString loc)), ("name", .str name), ("description", .str "")] joiSchema
    let req : Bool :=
      match loc with
      | .path => true
      | _ => presenceRequired pd.schema
    .obj (setField base "required" (.bool req))

/-- Parameters contributed by one node of a chain (the flatMap body at
src/swagger/index.ts lines 122-169). -/
def nodeParams : RouteNode → List JValue
  | .ns _ ps _ => ps.map (fun p => nsParam p.1 p.2)
  | .route r => r.params.map (fun p => routeParam p.1 p.2)

/-- The operation's parameter list: flatMap over the chain followed by the
final deepOmit over every parameter (src/swagger/index.ts line 170). -/
def mkParameters (chain : List RouteNode) : List JValue :=
  (chain.flatMap nodeParams).map (fun param => deepOmit param sanitizedKeys)

/-- One generated response entry: description and optional schema.  schema
none covers both the absent key of the default branch and an undefined value
(JSON serialization drops either). -/
structure SwaggerResponse where
  description : String
  schema : Option JValue
deriving DecidableEq

/-- Embeds the responses construction of src/swagger/index.ts lines 171-204:
declared responses are resolved entry by entry (description defaulting to the
empty string); a route with no declared responses gets the single default
entry 200/"Success" with no schema. -/
def buildResponses (definitions : List (String × SchemaVal))
    (declared : Option (List (Nat × ResponseDecl))) : List (Nat × SwaggerResponse) :=
  match declared with
  | some rs =>
    rs.map (fun p =>
      (p.1, ⟨p.2.desc.getD "", p.2.schema.map (resolveResponseSchema definitions)⟩))
  | none => [(200, ⟨"Success", none⟩)]

/-- A generated operation object: description, produces, parameters,
responses, operationId in source order. -/
structure Operation where
  description : Option String
  produces : List String
  parameters : List JValue
  responses : List (Nat × SwaggerResponse)
  operationId : String
deriving DecidableEq

/-- Embeds endRoute.operationId || derived (src/swagger/index.ts line 205):
JS falsiness means a declared empty string is discarded in favor of the
derived identifier. -/
def chooseOperationId (declared : Option String) (derived : String) : String :=
  match declared with
  | some s => if s = "" then derived else s
  | none => derived

/-- Embeds the operation construction of src/swagger/index.ts lines 117-206
for one chain with terminal route endRoute. -/
def mkOperation (definitions : List (String × SchemaVal)) (chain : List RouteNode)
    (endRoute : RouteData) : Operation :=
  let corgiPath := String.join (chain.map nodePath)
  ⟨endRoute.description,
   ["application/json; charset=utf-8"],
   mkParameters chain,
   buildResponses definitions endRoute.responses,
   chooseOperationId endRoute.operationId (routesToOperationId corgiPath endRoute.method)⟩

/-- Models the JS property write into a path entry's method-keyed operation
map: an existing method key keeps its position and is overwritten, a new one
is appended. -/
def setOpKey (ops : List (String × Operation)) (m : String) (op : Operation) :
    List (String × Operation) :=
  match ops with
  | [] => [(m, op)]
  | e :: rest => if e.1 = m then (m, op) :: rest else e :: setOpKey rest m op

/-- Embeds lines 114-116 and 207-217: ensure a path entry exists (creating an
empty operation map when absent) and write the operation under the method
key; an existing path entry accumulates rather than being overwritten. -/
def insertOp (paths : List (String × List (String × Operation))) (p m : String)
    (op : Operation) : List (String × List (String × Operation)) :=
  match paths with
  | [] => [(p, [(m, op)])]
  | e :: rest => if e.1 = p then (e.1, setOpKey e.2 m op) :: rest else e :: insertOp rest p m op

/-- The slice of the incoming request the generator reads: the Host header,
the X-Forwarded-Proto header and the deployment stage. -/
structure LambdaEvent where
  host : String
  xForwardedProto : String
  stage : String

/-- The caller-supplied metadata: the Swagger info fields plus the
definitions table. -/
structure SwaggerInfo where
  title : String
  version : String
  description : Option String
  termsOfService : Option String
  contact : Option JValue
  license : Option JValue
  definitions : List (String × SchemaVal)

/-- The info block of the output document. -/
structure InfoObject where
  title : String
  version : String
  description : Option String
  termsOfService : Option String
  contact : Option JValue
  license : Option JValue

/-- The output document: top-level keys in source order (src/swagger/index.ts
lines 220-247). -/
structure SwaggerSpec where
  swagger : String
  info : InfoObject
  host : String
  basePath : String
  schemes : List String
  produces : List String
  paths : List (String × List (String × Operation))
  tags : List JValue
  definitions : List (String × JValue)

/-- One iteration of the forEach over flattened chains (src/swagger/index.ts
lines 109-218).  The none arm is unreachable on flattener output, whose
chains always end in a Route (theorem flattenRoute_endsRoute). -/
def generateStep (definitions : List (String × SchemaVal))
    (paths : List (String × List (String × Operation))) (chain : List RouteNode) :
    List (String × List (String × Operation)) :=
  match chainEnd chain with
  | some endRoute =>
    let corgiPath := String.join (chain.map nodePath)
    insertOp paths (toSwaggerPath corgiPath) (methodSwitchKey endRoute.method)
      (mkOperation definitions chain endRoute)
  | none => paths

/-- Embeds generateJSON of src/swagger/index.ts lines 90-250. -/
def generateJSON (info : SwaggerInfo) (request : LambdaEvent)
    (cascadedRoutes : List RouteNode) : SwaggerSpec :=
  let paths := (flattenRoutes cascadedRoutes).foldl (generateStep info.definitions) []
  ⟨"2.0",
   ⟨info.title, info.version, info.description, info.termsOfService, info.contact, info.license⟩,
   request.host,
   "/" ++ request.stage ++ "/",
   [request.xForwardedProto],
   ["application/json; charset=utf-8"],
   paths,
   [],
   info.definitions.map (fun p =>
     (p.1, match asJoiSchema p.2 with
           | some joi => JoiToSwaggerSchema joi
           | none => p.2.raw))⟩

/-- All (path key, method key) pairs of the generated paths map. -/
def pairsOf (paths : List (String × List (String × Operation))) : List (String × String) :=
  paths.flatMap (fun e => e.2.map (fun me => (e.1, me.1)))

/-- Total number of (path, method) operation entries in the paths map. -/
def countOps (paths : List (String × List (String × Operation))) : Nat :=
  (pairsOf paths).length

/-- The (rewritten path, method key) pair a chain contributes. -/
def chainPair (chain : List RouteNode) : String × String :=
  (toSwaggerPath (String.join (chain.map nodePath)),
   match chainEnd chain with
   | some r => methodSwitchKey r.method
   | none => "")

/-- All operation objects of the paths map. -/
def opsOf (paths : List (String × List (String × Operation))) : List Operation :=
  paths.flatMap (fun e => e.2.map Prod.snd)



mutual

/-- Modelled from the spec: the sanitizer as the claim describes it, removing
the denylisted keys from every nested object while recursing only into
object-valued fields and leaving arrays and primitive leaves untouched.  Used
solely to compare the claimed behavior against the source's deepOmit. -/
def sanitizeSpecV (ks : List String) : JValue → JValue
  | .obj fs => .obj (sanitizeSpecFields ks fs)
  | v => v

def sanitizeSpecFields (ks : List String) : List (String × JValue) → List (String × JValue)
  | [] => []
  | (k, v) :: rest =>
    if ks.contains k then sanitizeSpecFields ks rest
    else (k, sanitizeSpecV ks v) :: sanitizeSpecFields ks rest

end

/-- Concrete Joi schema value used to exercise the definitions table. -/
def joiSchemaA : SchemaVal :=
  ⟨1, true, .obj [("type", .str "object"), ("additionalProperties", .bool false)], .null, none⟩

/-- A schema value structurally equal to joiSchemaA in every introspectable
respect but a distinct object (different oid). -/
def joiSchemaTwin : SchemaVal :=
  ⟨2, true, .obj [("type", .str "object"), ("additionalProperties", .bool false)], .null, none⟩

/-- A schema shape with a denylisted key inside an object nested in an
array. -/
def arrayNestedShape : JValue :=
  .obj [("items", .arr [.obj [("additionalProperties", .bool false), ("type", .str "string")]])]

/-- A route with no declared operationId and no declared responses. -/
def pingRoute : RouteData :=
  ⟨"/ping", .GET, none, none, [], none⟩

/-- A route declaring a non-empty operationId. -/
def namedRoute : RouteData :=
  ⟨"/ping", .GET, none, some "customId", [], none⟩

/-- A route declaring the empty string as its operationId. -/
def emptyIdRoute : RouteData :=
  ⟨"/orders", .POST, none, some "", [], none⟩

/-- Routes for the counting example: two methods on one path plus another
path, grouped under one namespace. -/
def wRouteGetX : RouteData :=
  ⟨"/x", .GET, none, none, [], none⟩

def wRoutePostX : RouteData :=
  ⟨"/x", .POST, none, none, [], none⟩

def wRouteGetY : RouteData :=
  ⟨"/y", .GET, none, none, [], none⟩

def wRoutes : List RouteNode :=
  [.ns "/api" [] [.route wRouteGetX, .route wRoutePostX, .route wRouteGetY]]

def wInfo : SwaggerInfo :=
  ⟨"t", "1", none, none, none, none, []⟩

def wEvent : LambdaEvent :=
  ⟨"example.com", "https", "prod"⟩

/-- The operations generateJSON produces for wRoutes. -/
def wOpGetX : Operation :=
  ⟨none, ["application/json; charset=utf-8"], [], [(200, ⟨"Success", none⟩)], "GetApiX"⟩

def wOpPostX : Operation :=
  ⟨none, ["application/json; charset=utf-8"], [], [(200, ⟨"Success", none⟩)], "PostApiX"⟩

theorem omitV_isObjectLike (ks : List String) (v : JValue) :
    (omitV ks v).isObjectLike = true := by
  cases v <;> rfl

mutual

theorem bannedFree_omitV (ks : List String) (v : JValue) :
    bannedFreeV ks (omitV ks v) = true := by
  cases v with
  | obj fs => exact bannedFree_omitFields ks fs
  | arr xs => exact bannedFree_omitArr ks xs
  | _ => rfl

theorem bannedFree_omitFields (ks : List String) (fs : List (String × JValue)) :
    bannedFreeFields ks (omitFields ks fs) = true := by
  match fs with
  | [] => rfl
  | (k, v) :: rest =>
    by_cases hk : k ∈ ks
    · simpa [omitFields, hk] using bannedFree_omitFields ks rest
    · by_cases hv : v.isObjectLike
      · simp [omitFields, hk, hv, bannedFreeFields, bannedFree_omitV ks v,
          bannedFree_omitFields ks rest]
      · have hfree : bannedFreeV ks v = true := by
          cases v <;> simp_all [JValue.isObjectLike, bannedFreeV]
        simp [omitFields, hk, hv, bannedFreeFields, hfree, bannedFree_omitFields ks rest]

theorem bannedFree_omitArr (ks : List String) (xs : List JValue) :
    bannedFreeArr ks (omitArr ks xs) = true := by
  match xs with
  | [] => rfl
  | v :: rest =>
    by_cases hv : v.isObjectLike
    · simp [omitArr, hv, bannedFreeArr, bannedFree_omitV ks v, bannedFree_omitArr ks rest]
    · have hfree : bannedFreeV ks v = true := by
        cases v <;> simp_all [JValue.isObjectLike, bannedFreeV]
      simp [omitArr, hv, bannedFreeArr, hfree, bannedFree_omitArr ks rest]

end

mutual

theorem omitV_of_bannedFree (ks : List String) (v : JValue) (ho : v.isObjectLike = true)
    (hb : bannedFreeV ks v = true) : omitV ks v = v := by
  cases v with
  | obj fs => simpa [omitV] using omitFields_of_bannedFree ks fs hb
  | arr xs => simpa [omitV] using omitArr_of_bannedFree ks xs hb
  | _ => simp [JValue.isObjectLike] at ho

theorem omitFields_of_bannedFree (ks : List String) (fs : List (String × JValue))
    (hb : bannedFreeFields ks fs = true) : omitFields ks fs = fs := by
  match fs with
  | [] => rfl
  | (k, v) :: rest =>
    simp only [bannedFreeFields, Bool.and_eq_true, Bool.not_eq_true'] at hb
    obtain ⟨⟨hk, hv⟩, hrest⟩ := hb
    have hk' : ¬k ∈ ks := by simpa using hk
    by_cases ho : v.isObjectLike
    · simp [omitFields, hk', ho, omitV_of_bannedFree ks v ho hv,
        omitFields_of_bannedFree ks rest hrest]
    · simp [omitFields, hk', ho, omitFields_of_bannedFree ks rest hrest]

theorem omitArr_of_bannedFree (ks : List String) (xs : List JValue)
    (hb : bannedFreeArr ks xs = true) : omitArr ks xs = xs := by
  match xs with
  | [] => rfl
  | v :: rest =>
    simp only [bannedFreeArr, Bool.and_eq_true] at hb
    obtain ⟨hv, hrest⟩ := hb
    by_cases ho : v.isObjectLike
    · simp [omitArr, ho, omitV_of_bannedFree ks v ho hv, omitArr_of_bannedFree ks rest hrest]
    · simp [omitArr, ho, omitArr_of_bannedFree ks rest hrest]

end

theorem omitV_idem (ks : List String) (v : JValue) :
    omitV ks (omitV ks v) = omitV ks v :=
  omitV_of_bannedFree ks (omitV ks v) (omitV_isObjectLike ks v) (bannedFree_omitV ks v)

theorem sanitize_bannedFree (x : JValue) :
    bannedFreeV sanitizedKeys (sanitize x) = true :=
  bannedFree_omitV sanitizedKeys x

theorem sanitize_of_bannedFree (x : JValue) (ho : x.isObjectLike = true)
    (hb : bannedFreeV sanitizedKeys x = true) : sanitize x = x :=
  omitV_of_bannedFree sanitizedKeys x ho hb

theorem omitFields_keys (ks : List String) (fs : List (String × JValue)) :
    (omitFields ks fs).map Prod.fst = (fs.map Prod.fst).filter (fun k => !ks.contains k) := by
  induction fs with
  | nil => rfl
  | cons f rest ih =>
    obtain ⟨k, v⟩ := f
    by_cases hk : k ∈ ks <;> simp [omitFields, List.filter_cons, hk, ih]

theorem omitArr_length (ks : List String) (xs : List JValue) :
    (omitArr ks xs).length = xs.length := by
  induction xs with
  | nil => rfl
  | cons v rest ih => simp [omitArr, ih]

theorem bannedFreeFields_mem (ks : List String) (fs : List (String × JValue))
    (hb : bannedFreeFields ks fs = true) {p : String × JValue} (hp : p ∈ fs) :
    ks.contains p.1 = false ∧ bannedFreeV ks p.2 = true := by
  induction fs with
  | nil => cases hp
  | cons f rest ih =>
    obtain ⟨k, v⟩ := f
    simp only [bannedFreeFields, Bool.and_eq_true, Bool.not_eq_true'] at hb
    rcases List.mem_cons.mp hp with hp | hp
    · subst hp
      exact ⟨hb.1.1, hb.1.2⟩
    · exact ih hb.2 hp

theorem rewriteChars_false_cons (c : Char) (rest : List Char) :
    rewriteChars false (c :: rest) =
      if c == ':' && headIsWord rest then '\x7b' :: rewriteChars true rest
      else c :: rewriteChars false rest := rfl

theorem rewriteChars_true_cons (c : Char) (rest : List Char) :
    rewriteChars true (c :: rest) =
      if isWordChar c then c :: rewriteChars true rest
      else if c == ':' && headIsWord rest then '\x7d' :: '\x7b' :: rewriteChars true rest
      else '\x7d' :: c :: rewriteChars false rest := rfl

theorem noColonWord_cons (c : Char) (rest : List Char) :
    noColonWord (c :: rest) = (!(c == ':' && headIsWord rest) && noColonWord rest) := rfl

theorem headIsWord_cons (c : Char) (rest : List Char) :
    headIsWord (c :: rest) = isWordChar c := rfl

theorem headIsWord_rewriteChars_false (l : List Char) (h : headIsWord l = false) :
    headIsWord (rewriteChars false l) = false := by
  cases l with
  | nil => rfl
  | cons c rest =>
    rw [headIsWord_cons] at h
    rw [rewriteChars_false_cons]
    by_cases hB : (c == ':' && headIsWord rest) = true
    · rw [if_pos hB]
      rfl
    · rw [if_neg hB, headIsWord_cons, h]

theorem rewriteChars_true_of_nonword (l : List Char) (h : headIsWord l = false) :
    rewriteChars true l = '\x7d' :: rewriteChars false l := by
  cases l with
  | nil => rfl
  | cons c rest =>
    rw [headIsWord_cons] at h
    rw [rewriteChars_true_cons, rewriteChars_false_cons, if_neg (by simp [h])]
    by_cases hB : (c == ':' && headIsWord rest) = true
    · rw [if_pos hB, if_pos hB]
    · rw [if_neg hB, if_neg hB]

theorem noColonWord_rewriteChars (l : List Char) :
    noColonWord (rewriteChars true l) = true ∧ noColonWord (rewriteChars false l) = true := by
  induction l with
  | nil => exact ⟨rfl, rfl⟩
  | cons c rest ih =>
    have hfalse : noColonWord (rewriteChars false (c :: rest)) = true := by
      rw [rewriteChars_false_cons]
      by_cases hB : (c == ':' && headIsWord rest) = true
      · rw [if_pos hB, noColonWord_cons]
        have h1 : ('\x7b' == ':') = false := rfl
        simp [h1, ih.1]
      · rw [if_neg hB, noColonWord_cons]
        have h1 : (c == ':' && headIsWord (rewriteChars false rest)) = false := by
          by_cases hcolon : (c == ':') = true
          · have hw : headIsWord rest = false := by
              by_contra hw'
              have hwt : headIsWord rest = true := by simpa using hw'
              exact hB (by rw [hcolon, hwt]; rfl)
            rw [hcolon, headIsWord_rewriteChars_false rest hw, Bool.and_false]
          · have hc0 : (c == ':') = false := by simpa using hcolon
            rw [hc0, Bool.false_and]
        rw [h1]
        simp [ih.2]
    refine ⟨?_, hfalse⟩
    by_cases hw : isWordChar c = true
    · have hcolon : (c == ':') = false := by
        by_cases h' : (c == ':') = true
        · have hcc : c = ':' := by simpa using h'
          subst hcc
          exact absurd hw (by decide)
        · exact Bool.not_eq_true _ ▸ (by simpa using h')
      rw [rewriteChars_true_cons, if_pos hw, noColonWord_cons]
      have h1 : (c == ':' && headIsWord (rewriteChars true rest)) = false := by
        rw [hcolon, Bool.false_and]
      rw [h1]
      simp [ih.1]
    · have hw' : isWordChar c = false := by simpa using hw
      rw [rewriteChars_true_of_nonword (c :: rest) (by rw [headIsWord_cons, hw'])]
      rw [noColonWord_cons]
      have h1 : ('\x7d' == ':') = false := rfl
      simp [h1, hfalse]

theorem rewriteChars_false_fixed (l : List Char) (h : noColonWord l = true) :
    rewriteChars false l = l := by
  induction l with
  | nil => rfl
  | cons c rest ih =>
    rw [noColonWord_cons, Bool.and_eq_true] at h
    obtain ⟨hb, hrest⟩ := h
    have h1 : (c == ':' && headIsWord rest) = false := by
      revert hb
      cases (c == ':' && headIsWord rest) <;> simp
    rw [rewriteChars_false_cons, if_neg (by simp [h1]), ih hrest]

theorem toSwaggerPath_idem (p : String) :
    toSwaggerPath (toSwaggerPath p) = toSwaggerPath p := by
  unfold toSwaggerPath
  rw [rewriteChars_false_fixed _ (noColonWord_rewriteChars p.data).2]

theorem noColonWord_toSwaggerPath (p : String) :
    noColonWord (toSwaggerPath p).data = true :=
  (noColonWord_rewriteChars p.data).2

mutual

theorem flattenRoute_length (parents : List RouteNode) (t : RouteNode) :
    (flattenRoute parents t).length = countRoutesNode t := by
  match t with
  | .route r => rfl
  | .ns p ps children =>
    exact flattenRouteList_length (parents ++ [.ns p ps children]) children

theorem flattenRouteList_length (parents : List RouteNode) (l : List RouteNode) :
    (flattenRouteList parents l).length = countRoutesList l := by
  match l with
  | [] => rfl
  | c :: rest =>
    simp only [flattenRouteList, countRoutesList, List.length_append]
    rw [flattenRoute_length parents c, flattenRouteList_length parents rest]

end

mutual

theorem flattenRoute_endsRoute (parents : List RouteNode) (t : RouteNode)
    (chain : List RouteNode) (hc : chain ∈ flattenRoute parents t) :
    ∃ r, chain.getLast? = some (.route r) := by
  match t with
  | .route r =>
    simp only [flattenRoute, List.mem_singleton] at hc
    subst hc
    exact ⟨r, by simp⟩
  | .ns p ps children =>
    exact flattenRouteList_endsRoute (parents ++ [.ns p ps children]) children chain
      (by simpa [flattenRoute] using hc)

theorem flattenRouteList_endsRoute (parents : List RouteNode) (l : List RouteNode)
    (chain : List RouteNode) (hc : chain ∈ flattenRouteList parents l) :
    ∃ r, chain.getLast? = some (.route r) := by
  match l with
  | [] => cases hc
  | c :: rest =>
    simp only [flattenRouteList, List.mem_append] at hc
    rcases hc with hc | hc
    · exact flattenRoute_endsRoute parents c chain hc
    · exact flattenRouteList_endsRoute parents rest chain hc

end

theorem chainEnd_isSome_of_flatten (routes : List RouteNode) (chain : List RouteNode)
    (hc : chain ∈ flattenRoutes routes) : (chainEnd chain).isSome = true := by
  obtain ⟨r, hr⟩ := flattenRouteList_endsRoute [] routes chain hc
  simp [chainEnd, hr]

theorem flattenRoutes_length (routes : List RouteNode) :
    (flattenRoutes routes).length = countRoutes routes :=
  flattenRouteList_length [] routes

theorem pairsOf_cons (e : String × List (String × Operation))
    (rest : List (String × List (String × Operation))) :
    pairsOf (e :: rest) = e.2.map (fun me => (e.1, me.1)) ++ pairsOf rest := by
  simp [pairsOf]

theorem countOps_cons (e : String × List (String × Operation))
    (rest : List (String × List (String × Operation))) :
    countOps (e :: rest) = e.2.length + countOps rest := by
  simp [countOps, pairsOf_cons]

theorem setOpKey_length (ops : List (String × Operation)) (m : String) (op : Operation)
    (hm : ∀ e ∈ ops, e.1 ≠ m) : (setOpKey ops m op).length = ops.length + 1 := by
  induction ops with
  | nil => rfl
  | cons e rest ih =>
    have hne : e.1 ≠ m := hm e (List.mem_cons_self e rest)
    simp only [setOpKey, if_neg hne, List.length_cons]
    rw [ih (fun e' he' => hm e' (List.mem_cons_of_mem e he'))]

theorem setOpKey_fst_mem (ops : List (String × Operation)) (m : String) (op : Operation)
    (q : String × Operation) (hq : q ∈ setOpKey ops m op) :
    (q.1 ∈ ops.map Prod.fst ∨ q.1 = m) ∧ (q.2 ∈ ops.map Prod.snd ∨ q.2 = op) := by
  induction ops with
  | nil =>
    simp only [setOpKey, List.mem_singleton] at hq
    subst hq
    exact ⟨Or.inr rfl, Or.inr rfl⟩
  | cons e rest ih =>
    simp only [setOpKey] at hq
    by_cases he : e.1 = m
    · rw [if_pos he] at hq
      rcases List.mem_cons.mp hq with hq | hq
      · subst hq
        exact ⟨Or.inr rfl, Or.inr rfl⟩
      · exact ⟨Or.inl (List.mem_map_of_mem Prod.fst (List.mem_cons_of_mem e hq)),
          Or.inl (List.mem_map_of_mem Prod.snd (List.mem_cons_of_mem e hq))⟩
    · rw [if_neg he] at hq
      rcases List.mem_cons.mp hq with hq | hq
      · subst hq
        exact ⟨Or.inl (List.mem_map_of_mem Prod.fst (List.mem_cons_self q rest)),
          Or.inl (List.mem_map_of_mem Prod.snd (List.mem_cons_self q rest))⟩
      · rcases ih hq with ⟨h1, h2⟩
        constructor
        · rcases h1 with h1 | h1
          · exact Or.inl (by rw [List.map_cons]; exact List.mem_cons_of_mem e.1 h1)
          · exact Or.inr h1
        · rcases h2 with h2 | h2
          · exact Or.inl (by rw [List.map_cons]; exact List.mem_cons_of_mem e.2 h2)
          · exact Or.inr h2

theorem countOps_insertOp (paths : List (String × List (String × Operation)))
    (p m : String) (op : Operation) (hp : (p, m) ∉ pairsOf paths) :
    countOps (insertOp paths p m op) = countOps paths + 1 := by
  induction paths with
  | nil => rfl
  | cons e rest ih =>
    rw [pairsOf_cons, List.mem_append] at hp
    push_neg at hp
    obtain ⟨hp1, hp2⟩ := hp
    by_cases he : e.1 = p
    · simp only [insertOp, if_pos he]
      rw [countOps_cons, countOps_cons]
      have hm : ∀ me ∈ e.2, me.1 ≠ m := by
        intro me hme hcontra
        exact hp1 (by
          subst he
          exact List.mem_map.mpr ⟨me, hme, by rw [hcontra]⟩)
      rw [setOpKey_length e.2 m op hm]
      omega
    · simp only [insertOp, if_neg he]
      rw [countOps_cons, countOps_cons, ih hp2]
      omega

theorem pairsOf_insertOp_subset (paths : List (String × List (String × Operation)))
    (p m : String) (op : Operation) (q : String × String)
    (hq : q ∈ pairsOf (insertOp paths p m op)) : q ∈ pairsOf paths ∨ q = (p, m) := by
  induction paths with
  | nil =>
    simp only [insertOp, pairsOf, List.flatMap_cons, List.flatMap_nil, List.map_cons,
      List.map_nil, List.append_nil, List.mem_singleton] at hq
    exact Or.inr hq
  | cons e rest ih =>
    by_cases he : e.1 = p
    · simp only [insertOp, if_pos he] at hq
      rw [pairsOf_cons] at hq
      rcases List.mem_append.mp hq with hq | hq
      · obtain ⟨me, hme, hqe⟩ := List.mem_map.mp hq
        rcases (setOpKey_fst_mem e.2 m op me hme).1 with h1 | h1
        · obtain ⟨k, hk, hk2⟩ := List.mem_map.mp h1
          left
          rw [pairsOf_cons, List.mem_append]
          left
          exact List.mem_map.mpr ⟨k, hk, by rw [← hqe, hk2]⟩
        · right
          rw [← hqe, h1, he]
      · left
        rw [pairsOf_cons, List.mem_append]
        exact Or.inr hq
    · simp only [insertOp, if_neg he] at hq
      rw [pairsOf_cons] at hq
      rcases List.mem_append.mp hq with hq | hq
      · left
        rw [pairsOf_cons, List.mem_append]
        exact Or.inl hq
      · rcases ih hq with h | h
        · left
          rw [pairsOf_cons, List.mem_append]
          exact Or.inr h
        · exact Or.inr h

theorem opsOf_cons (e : String × List (String × Operation))
    (rest : List (String × List (String × Operation))) :
    opsOf (e :: rest) = e.2.map Prod.snd ++ opsOf rest := by
  simp [opsOf]

theorem opsOf_insertOp_subset (paths : List (String × List (String × Operation)))
    (p m : String) (op : Operation) (o : Operation)
    (ho : o ∈ opsOf (insertOp paths p m op)) : o ∈ opsOf paths ∨ o = op := by
  induction paths with
  | nil =>
    simp only [insertOp, opsOf, List.flatMap_cons, List.flatMap_nil, List.map_cons,
      List.map_nil, List.append_nil, List.mem_singleton] at ho
    exact Or.inr ho
  | cons e rest ih =>
    by_cases he : e.1 = p
    · simp only [insertOp, if_pos he] at ho
      rw [opsOf_cons] at ho
      rcases List.mem_append.mp ho with ho | ho
      · obtain ⟨me, hme, hoe⟩ := List.mem_map.mp ho
        rcases (setOpKey_fst_mem e.2 m op me hme).2 with h1 | h1
        · left
          rw [opsOf_cons, List.mem_append]
          exact Or.inl (by rw [← hoe]; exact h1)
        · right
          rw [← hoe, h1]
      · left
        rw [opsOf_cons, List.mem_append]
        exact Or.inr ho
    · simp only [insertOp, if_neg he] at ho
      rw [opsOf_cons] at ho
      rcases List.mem_append.mp ho with ho | ho
      · left
        rw [opsOf_cons, List.mem_append]
        exact Or.inl ho
      · rcases ih ho with h | h
        · left
          rw [opsOf_cons, List.mem_append]
          exact Or.inr h
        · exact Or.inr h

theorem generateStep_of_chainEnd (definitions : List (String × SchemaVal))
    (paths : List (String × List (String × Operation))) (chain : List RouteNode)
    (r : RouteData) (hr : chainEnd chain = some r) :
    generateStep definitions paths chain =
      insertOp paths (chainPair chain).1 (chainPair chain).2
        (mkOperation definitions chain r) := by
  simp [generateStep, chainPair, hr]

theorem countOps_foldl (definitions : List (String × SchemaVal))
    (chains : List (List RouteNode)) :
    ∀ paths, (∀ c ∈ chains, (chainEnd c).isSome = true) →
    (chains.map chainPair).Nodup →
    (∀ c ∈ chains, chainPair c ∉ pairsOf paths) →
    countOps (chains.foldl (generateStep definitions) paths) =
      countOps paths + chains.length := by
  induction chains with
  | nil => intro paths _ _ _; simp
  | cons c rest ih =>
    intro paths hsome hnodup hdisj
    rw [List.foldl_cons]
    obtain ⟨r, hr⟩ := Option.isSome_iff_exists.mp (hsome c (List.mem_cons_self c rest))
    have hstep := generateStep_of_chainEnd definitions paths c r hr
    have hnotin : ((chainPair c).1, (chainPair c).2) ∉ pairsOf paths := by
      simpa using hdisj c (List.mem_cons_self c rest)
    have hcount : countOps (generateStep definitions paths c) = countOps paths + 1 := by
      rw [hstep]
      exact countOps_insertOp paths (chainPair c).1 (chainPair c).2 _ hnotin
    have hdisj' : ∀ c' ∈ rest, chainPair c' ∉ pairsOf (generateStep definitions paths c) := by
      intro c' hc' hmem
      rw [hstep] at hmem
      rcases pairsOf_insertOp_subset paths (chainPair c).1 (chainPair c).2 _ _ hmem with h | h
      · exact hdisj c' (List.mem_cons_of_mem c hc') h
      · have hcc : chainPair c' = chainPair c := by simpa using h
        have : chainPair c ∈ rest.map chainPair := List.mem_map.mpr ⟨c', hc', hcc⟩
        exact (List.nodup_cons.mp hnodup).1 this
    rw [ih (generateStep definitions paths c) (fun c' hc' => hsome c' (List.mem_cons_of_mem c hc'))
      (List.nodup_cons.mp hnodup).2 hdisj', hcount]
    simp [List.length_cons]
    omega

theorem opsOf_foldl_produces (definitions : List (String × SchemaVal))
    (chains : List (List RouteNode)) :
    ∀ paths, (∀ o ∈ opsOf paths, o.produces = ["application/json; charset=utf-8"]) →
    ∀ o ∈ opsOf (chains.foldl (generateStep definitions) paths),
      o.produces = ["application/json; charset=utf-8"] := by
  induction chains with
  | nil => intro paths h; exact h
  | cons c rest ih =>
    intro paths h
    rw [List.foldl_cons]
    apply ih
    intro o ho
    cases hr : chainEnd c with
    | none =>
      rw [generateStep, hr] at ho
      exact h o ho
    | some r =>
      rw [generateStep_of_chainEnd definitions paths c r hr] at ho
      rcases opsOf_insertOp_subset paths (chainPair c).1 (chainPair c).2 _ _ ho with h1 | h1
      · exact h o h1
      · rw [h1]
        rfl

theorem omitFields_cons (ks : List String) (k' : String) (v : JValue)
    (rest : List (String × JValue)) :
    omitFields ks ((k', v) :: rest) =
      if ks.contains k' then omitFields ks rest
      else (k', if v.isObjectLike then omitV ks v else v) :: omitFields ks rest := rfl

theorem find?_omitFields (ks : List String) (fs : List (String × JValue)) (k : String)
    (hk : ks.contains k = false) :
    (omitFields ks fs).find? (fun p => p.1 == k) =
      ((fs.find? (fun p => p.1 == k)).map
        (fun p => (p.1, if p.2.isObjectLike then omitV ks p.2 else p.2))) := by
  induction fs with
  | nil => rfl
  | cons f rest ih =>
    obtain ⟨k', v⟩ := f
    rw [omitFields_cons]
    by_cases hk' : ks.contains k' = true
    · rw [if_pos hk']
      have hne : ¬((fun p : String × JValue => p.1 == k) (k', v) = true) := by
        simp only [beq_iff_eq]
        intro hq
        rw [hq, hk] at hk'
        exact absurd hk' (by simp)
      rw [show List.find? (fun p : String × JValue => p.1 == k) ((k', v) :: rest) =
            List.find? (fun p : String × JValue => p.1 == k) rest from
          List.find?_cons_of_neg rest hne]
      exact ih
    · rw [if_neg hk']
      by_cases he : ((fun p : String × JValue => p.1 == k) (k', v)) = true
      · rw [show List.find? (fun p : String × JValue => p.1 == k)
              ((k', if v.isObjectLike then omitV ks v else v) :: omitFields ks rest) =
              some (k', if v.isObjectLike then omitV ks v else v) from
            List.find?_cons_of_pos (omitFields ks rest) (by exact he),
          show List.find? (fun p : String × JValue => p.1 == k) ((k', v) :: rest) =
              some (k', v) from List.find?_cons_of_pos rest (by exact he)]
        rfl
      · rw [show List.find? (fun p : String × JValue => p.1 == k)
              ((k', if v.isObjectLike then omitV ks v else v) :: omitFields ks rest) =
              List.find? (fun p : String × JValue => p.1 == k) (omitFields ks rest) from
            List.find?_cons_of_neg (omitFields ks rest) (by exact he),
          show List.find? (fun p : String × JValue => p.1 == k) ((k', v) :: rest) =
              List.find? (fun p : String × JValue => p.1 == k) rest from
            List.find?_cons_of_neg rest (by exact he)]
        exact ih

theorem getField_omitV_obj (ks : List String) (fs : List (String × JValue)) (k : String)
    (hk : ks.contains k = false) :
    getField (omitV ks (.obj fs)) k =
      match fs.find? (fun p => p.1 == k) with
      | some p => if p.2.isObjectLike then omitV ks p.2 else p.2
      | none => .undefined := by
  show getField (.obj (omitFields ks fs)) k = _
  rw [getField, find?_omitFields ks fs k hk]
  cases fs.find? (fun p => p.1 == k) <;> rfl

theorem find?_setField (fs : List (String × JValue)) (k : String) (v : JValue) :
    (setField fs k v).find? (fun p => p.1 == k) = some (k, v) := by
  induction fs with
  | nil => simp [setField, List.find?_cons]
  | cons f rest ih =>
    by_cases hf : f.1 = k
    · simp [setField, hf, List.find?_cons]
    · have hf' : (f.1 == k) = false := by simpa using hf
      simp only [setField, if_neg hf, List.find?_cons, hf']
      exact ih

theorem getField_bannedFree (ks : List String) (x : JValue) (hb : bannedFreeV ks x = true)
    (k : String) : bannedFreeV ks (getField x k) = true := by
  cases x with
  | obj fs =>
    rw [getField]
    cases hf : fs.find? (fun p => p.1 == k) with
    | none => rfl
    | some p =>
      exact (bannedFreeFields_mem ks fs (by simpa [bannedFreeV] using hb)
        (List.mem_of_find?_eq_some hf)).2
  | arr xs => rfl
  | undefined => rfl
  | null => rfl
  | bool b => rfl
  | num n => rfl
  | str s => rfl

theorem omit_noop_of_bannedFree (ks : List String) (v : JValue)
    (hb : bannedFreeV ks v = true) :
    (if v.isObjectLike then omitV ks v else v) = v := by
  by_cases ho : v.isObjectLike
  · rw [if_pos ho, omitV_of_bannedFree ks v ho hb]
  · rw [if_neg ho]

/-- C1: convertToReference returns a $ref token if and only if some
definitions entry is reference-identical (oid, modelling ===) to the response
schema, the token names such an entry, a structurally equal but distinct
object never matches, and when no entry is identical the schema is inlined:
translated when it is a validation-library schema, passed through unchanged
otherwise. -/
theorem convertToReference_iff_identity (definitions : List (String × SchemaVal))
    (schema : SchemaVal) :
    ((convertToReference definitions schema).isSome = true ↔
      ∃ p ∈ definitions, p.2.oid = schema.oid)
    ∧ (∀ r, convertToReference definitions schema = some r →
        ∃ p ∈ definitions, p.2.oid = schema.oid ∧
          r = .obj [("$ref", .str ("#/definitions/" ++ p.1))])
    ∧ ((∀ p ∈ definitions, p.2.oid ≠ schema.oid) →
        convertToReference definitions schema = none ∧
        resolveResponseSchema definitions schema =
          (if schema.isJoi then JoiToSwaggerSchema schema else schema.raw)) := by
  refine ⟨?_, ?_, ?_⟩
  · unfold convertToReference
    cases hf : definitions.find? (fun p => p.2.oid == schema.oid) with
    | none =>
      simp only [Option.isSome_none, Bool.false_eq_true, false_iff]
      rintro ⟨p, hp, he⟩
      have := List.find?_eq_none.mp hf p hp
      simp [he] at this
    | some p =>
      simp only [Option.isSome_some, true_iff]
      exact ⟨p, List.mem_of_find?_eq_some hf, by simpa using List.find?_some hf⟩
  · intro r hr
    unfold convertToReference at hr
    cases hf : definitions.find? (fun p => p.2.oid == schema.oid) with
    | none => rw [hf] at hr; cases hr
    | some p =>
      rw [hf] at hr
      refine ⟨p, List.mem_of_find?_eq_some hf, by simpa using List.find?_some hf, ?_⟩
      cases hr
      rfl
  · intro hall
    have hf : definitions.find? (fun p => p.2.oid == schema.oid) = none :=
      List.find?_eq_none.mpr (fun p hp => by simpa using hall p hp)
    have hnone : convertToReference definitions schema = none := by
      unfold convertToReference
      rw [hf]
    refine ⟨hnone, ?_⟩
    unfold resolveResponseSchema
    rw [hnone]
    by_cases hj : schema.isJoi <;> simp [asJoiSchema, hj]

/-- C1 witness: a table entry structurally equal to the response schema but a
distinct object yields no reference, and the schema is inlined as its
translation. -/
theorem convertToReference_iff_identity_witness :
    joiSchemaTwin.converted = joiSchemaA.converted ∧
    joiSchemaTwin.isJoi = joiSchemaA.isJoi ∧
    joiSchemaTwin.oid ≠ joiSchemaA.oid ∧
    convertToReference [("User", joiSchemaA)] joiSchemaTwin = none ∧
    resolveResponseSchema [("User", joiSchemaA)] joiSchemaTwin =
      (if joiSchemaTwin.isJoi then JoiToSwaggerSchema joiSchemaTwin else joiSchemaTwin.raw) := by
  have h := (convertToReference_iff_identity [("User", joiSchemaA)] joiSchemaTwin).2.2
    (by decide)
  exact ⟨by decide, by decide, by decide, h.1, h.2⟩

/-- C2 counterexample: the sanitizer does not leave arrays untouched; a
denylisted key inside an object nested in an array is removed, diverging from
the claimed behavior (sanitizeSpecV, which follows the claim's words). -/
theorem sanitize_recurses_into_arrays :
    sanitize arrayNestedShape ≠ sanitizeSpecV sanitizedKeys arrayNestedShape ∧
    sanitizeSpecV sanitizedKeys arrayNestedShape = arrayNestedShape ∧
    sanitize arrayNestedShape = .obj [("items", .arr [.obj [("type", .str "string")]])] :=
  ⟨by decide, by decide, by decide⟩

/-- C2 amended: sanitize removes exactly the denylisted keys from every
nested object at every depth, including objects nested inside arrays (it
recurses into arrays element-wise preserving length), preserves all other
keys (an object or array containing no denylisted key anywhere is returned
unchanged, so all other values and primitive leaves are kept exactly). -/
theorem sanitize_removes_exactly_denylist :
    (∀ x : JValue, bannedFreeV sanitizedKeys (sanitize x) = true)
    ∧ (∀ x : JValue, x.isObjectLike = true → bannedFreeV sanitizedKeys x = true →
        sanitize x = x)
    ∧ (∀ fs : List (String × JValue),
        (fieldsOf (sanitize (.obj fs))).map Prod.fst =
          (fs.map Prod.fst).filter (fun k => !sanitizedKeys.contains k))
    ∧ (∀ xs : List JValue, ∃ ys, sanitize (.arr xs) = .arr ys ∧ ys.length = xs.length) := by
  refine ⟨sanitize_bannedFree, sanitize_of_bannedFree, ?_, ?_⟩
  · intro fs
    exact omitFields_keys sanitizedKeys fs
  · intro xs
    exact ⟨omitArr sanitizedKeys xs, rfl, omitArr_length sanitizedKeys xs⟩

/-- C2 witness: a denylist-free object is returned unchanged. -/
theorem sanitize_removes_exactly_denylist_witness :
    (JValue.obj [("type", .str "string")]).isObjectLike = true ∧
    bannedFreeV sanitizedKeys (.obj [("type", .str "string")]) = true ∧
    sanitize (.obj [("type", .str "string")]) = .obj [("type", .str "string")] :=
  ⟨by decide, by decide,
    sanitize_removes_exactly_denylist.2.1 (.obj [("type", .str "string")])
      (by decide) (by decide)⟩

/-- C3: the sanitization pass is idempotent, with the same fixed denylist at
every nesting depth. -/
theorem sanitize_idempotent (x : JValue) : sanitize (sanitize x) = sanitize x :=
  omitV_idem sanitizedKeys x

/-- C5: toSwaggerPath rewrites every colon parameter marker into the
brace-delimited form in one pass over the whole path (no unrewritten marker
remains in any output), and applying the rewrite to an already-rewritten path
is a no-op. -/
theorem toSwaggerPath_rewrites_all_markers :
    toSwaggerPath "/users/:id/posts/:postId" = "/users/\x7bid\x7d/posts/\x7bpostId\x7d"
    ∧ (∀ p : String, noColonWord (toSwaggerPath p).data = true)
    ∧ (∀ p : String, toSwaggerPath (toSwaggerPath p) = toSwaggerPath p) :=
  ⟨by decide, noColonWord_toSwaggerPath, toSwaggerPath_idem⟩

/-- C4 counterexample: a route declaring the empty string as its operationId
does not keep it verbatim; JS falsiness makes the generator fall back to the
derived identifier. -/
theorem operationId_empty_string_not_verbatim :
    emptyIdRoute.operationId = some "" ∧
    (mkOperation [] [.route emptyIdRoute] emptyIdRoute).operationId = "PostOrders" ∧
    (mkOperation [] [.route emptyIdRoute] emptyIdRoute).operationId ≠ "" :=
  ⟨rfl, by decide, by decide⟩

/-- C4 amended: a route that declares no operation identifier, or declares
the empty string, gets the derived identifier: the capitalized lowercased
method followed by the slash-separated segments each capitalized after
stripping a leading colon marker (GET /users/:id gives GetUsersId, POST
/orders gives PostOrders); a route declaring a non-empty operationId keeps
it verbatim. -/
theorem operationId_derivation :
    (∀ (definitions : List (String × SchemaVal)) (chain : List RouteNode) (r : RouteData),
      (r.operationId = none ∨ r.operationId = some "") →
      (mkOperation definitions chain r).operationId =
        routesToOperationId (String.join (chain.map nodePath)) r.method)
    ∧ (∀ (definitions : List (String × SchemaVal)) (chain : List RouteNode) (r : RouteData)
        (s : String), r.operationId = some s → s ≠ "" →
      (mkOperation definitions chain r).operationId = s)
    ∧ routesToOperationId "/users/:id" .GET = "GetUsersId"
    ∧ routesToOperationId "/orders" .POST = "PostOrders" := by
  refine ⟨?_, ?_, by decide, by decide⟩
  · intro definitions chain r h
    rcases h with h | h <;> simp [mkOperation, chooseOperationId, h]
  · intro definitions chain r s h hs
    simp [mkOperation, chooseOperationId, h, hs]

/-- C4 witness: the derived and the verbatim branches at concrete routes. -/
theorem operationId_derivation_witness :
    (mkOperation [] [.route pingRoute] pingRoute).operationId = "GetPing" ∧
    (mkOperation [] [.route namedRoute] namedRoute).operationId = "customId" := by
  constructor
  · rw [operationId_derivation.1 [] [.route pingRoute] pingRoute (Or.inl rfl)]
    decide
  · exact operationId_derivation.2.1 [] [.route namedRoute] namedRoute "customId" rfl
      (by decide)

/-- C6: a route with no declared responses produces exactly the single entry
200 with description Success and no schema field. -/
theorem default_response (definitions : List (String × SchemaVal))
    (chain : List RouteNode) (r : RouteData) (h : r.responses = none) :
    (mkOperation definitions chain r).responses = [(200, ⟨"Success", none⟩)] := by
  simp [mkOperation, buildResponses, h]

/-- C6 witness. -/
theorem default_response_witness :
    pingRoute.responses = none ∧
    (mkOperation [] [.route pingRoute] pingRoute).responses = [(200, ⟨"Success", none⟩)] :=
  ⟨rfl, default_response [] [.route pingRoute] pingRoute rfl⟩

/-- C8: the generated document's envelope: swagger version, produces, tags,
schemes, host and basePath come verbatim from the fixed strings and the
request context. -/
theorem document_envelope (info : SwaggerInfo) (request : LambdaEvent)
    (routes : List RouteNode) :
    (generateJSON info request routes).swagger = "2.0" ∧
    (generateJSON info request routes).produces = ["application/json; charset=utf-8"] ∧
    (generateJSON info request routes).tags = [] ∧
    (generateJSON info request routes).schemes = [request.xForwardedProto] ∧
    (generateJSON info request routes).host = request.host ∧
    (generateJSON info request routes).basePath = "/" ++ request.stage ++ "/" :=
  ⟨rfl, rfl, rfl, rfl, rfl, rfl⟩

/-- C9: with no duplicate (path, method) pair among the flattened chains, the
generated document holds exactly one operation entry per terminal route:
distinct methods on one path accumulate in one path entry and the number of
(path, method) entries equals the number of terminal routes. -/
theorem operation_count (info : SwaggerInfo) (request : LambdaEvent)
    (routes : List RouteNode) (h : ((flattenRoutes routes).map chainPair).Nodup) :
    countOps (generateJSON info request routes).paths = countRoutes routes ∧
    countOps (generateJSON info request routes).paths = (flattenRoutes routes).length := by
  have hfold := countOps_foldl info.definitions (flattenRoutes routes) []
    (fun c hc => chainEnd_isSome_of_flatten routes c hc) h
    (fun c _ hmem => by simp [pairsOf] at hmem)
  have hpaths : (generateJSON info request routes).paths =
      (flattenRoutes routes).foldl (generateStep info.definitions) [] := rfl
  rw [hpaths, hfold]
  have hz : countOps ([] : List (String × List (String × Operation))) = 0 := rfl
  rw [hz, Nat.zero_add]
  exact ⟨flattenRoutes_length routes, rfl⟩

/-- C9 witness: three terminal routes, two of them sharing a path with
distinct methods, yield exactly three operation entries. -/
theorem operation_count_witness :
    ((flattenRoutes wRoutes).map chainPair).Nodup ∧
    countOps (generateJSON wInfo wEvent wRoutes).paths = countRoutes wRoutes ∧
    countRoutes wRoutes = 3 :=
  ⟨by decide, (operation_count wInfo wEvent wRoutes (by decide)).1, by decide⟩

/-- C10: every generated operation object carries its own produces field,
the single-element sequence with the JSON content type, both at construction
and inside every generated document. -/
theorem operations_produce_json :
    (∀ (definitions : List (String × SchemaVal)) (chain : List RouteNode) (r : RouteData),
      (mkOperation definitions chain r).produces = ["application/json; charset=utf-8"])
    ∧ (∀ (info : SwaggerInfo) (request : LambdaEvent) (routes : List RouteNode)
        (p : String) (ops : List (String × Operation)) (m : String) (op : Operation),
        (p, ops) ∈ (generateJSON info request routes).paths → (m, op) ∈ ops →
        op.produces = ["application/json; charset=utf-8"]) := by
  constructor
  · intro _ _ _
    rfl
  · intro info request routes p ops m op hp hm
    have hop : op ∈ opsOf ((flattenRoutes routes).foldl (generateStep info.definitions) []) :=
      List.mem_flatMap.mpr ⟨(p, ops), hp, List.mem_map.mpr ⟨(m, op), hm, rfl⟩⟩
    exact opsOf_foldl_produces info.definitions (flattenRoutes routes) []
      (fun o ho => by simp [opsOf] at ho) op hop

/-- C10 witness: a concrete operation of a generated document carries the
produces field. -/
theorem operations_produce_json_witness :
    wOpGetX.produces = ["application/json; charset=utf-8"] :=
  operations_produce_json.2 wInfo wEvent wRoutes "/api/x"
    [("get", wOpGetX), ("post", wOpPostX)] "get" wOpGetX (by decide) (by decide)

/-- C7: in the generated (sanitized) parameters, a terminal-route path
parameter is required regardless of the schema flags, body and query
parameters are required exactly when the described presence flag is not
"optional" (a schema lacking flags counts as required), the body parameter
nests the translated schema, and a Namespace parameter is a path parameter,
always required, with type taken from the translated schema's type field. -/
theorem parameter_requiredness :
    (∀ (n : String) (pd : ParamDef), pd.loc = .path →
      getField (deepOmit (routeParam n pd) sanitizedKeys) "required" = .bool true)
    ∧ (∀ (n : String) (pd : ParamDef), pd.loc = .query →
      getField (deepOmit (routeParam n pd) sanitizedKeys) "required" =
        .bool (presenceRequired pd.schema))
    ∧ (∀ (n : String) (pd : ParamDef), pd.loc = .body →
      getField (deepOmit (routeParam n pd) sanitizedKeys) "required" =
        .bool (presenceRequired pd.schema) ∧
      getField (deepOmit (routeParam n pd) sanitizedKeys) "schema" =
        JoiToSwaggerSchema pd.schema)
    ∧ (∀ (n : String) (s : SchemaVal),
      getField (deepOmit (nsParam n s) sanitizedKeys) "in" = .str "path" ∧
      getField (deepOmit (nsParam n s) sanitizedKeys) "required" = .bool true ∧
      getField (deepOmit (nsParam n s) sanitizedKeys) "type" =
        getField (JoiToSwaggerSchema s) "type")
    ∧ (∀ s : SchemaVal, s.presence = none → presenceRequired s = true) := by
  refine ⟨?_, ?_, ?_, ?_, ?_⟩
  · intro n pd h
    obtain ⟨loc, s⟩ := pd
    cases h
    show getField (omitV sanitizedKeys (.obj (setField
      (assignFields [("in", .str "path"), ("name", .str n), ("description", .str "")]
        (JoiToSwaggerSchema s)) "required" (.bool true)))) "required" = .bool true
    rw [getField_omitV_obj sanitizedKeys _ "required" rfl, find?_setField]
    rfl
  · intro n pd h
    obtain ⟨loc, s⟩ := pd
    cases h
    show getField (omitV sanitizedKeys (.obj (setField
      (assignFields [("in", .str "query"), ("name", .str n), ("description", .str "")]
        (JoiToSwaggerSchema s)) "required" (.bool (presenceRequired s))))) "required" =
      .bool (presenceRequired s)
    rw [getField_omitV_obj sanitizedKeys _ "required" rfl, find?_setField]
    rfl
  · intro n pd h
    obtain ⟨loc, s⟩ := pd
    cases h
    constructor
    · show getField (omitV sanitizedKeys (.obj
        [("in", .str "body"), ("name", .str n), ("description", .str ""),
         ("schema", JoiToSwaggerSchema s), ("required", .bool (presenceRequired s))]))
        "required" = .bool (presenceRequired s)
      rw [getField_omitV_obj sanitizedKeys _ "required" rfl]
      have hf : ([("in", JValue.str "body"), ("name", .str n), ("description", .str ""),
          ("schema", JoiToSwaggerSchema s),
          ("required", .bool (presenceRequired s))].find? (fun p => p.1 == "required")) =
          some ("required", .bool (presenceRequired s)) := rfl
      rw [hf]
      rfl
    · show getField (omitV sanitizedKeys (.obj
        [("in", .str "body"), ("name", .str n), ("description", .str ""),
         ("schema", JoiToSwaggerSchema s), ("required", .bool (presenceRequired s))]))
        "schema" = JoiToSwaggerSchema s
      rw [getField_omitV_obj sanitizedKeys _ "schema" rfl]
      have hf : ([("in", JValue.str "body"), ("name", .str n), ("description", .str ""),
          ("schema", JoiToSwaggerSchema s),
          ("required", .bool (presenceRequired s))].find? (fun p => p.1 == "schema")) =
          some ("schema", JoiToSwaggerSchema s) := rfl
      rw [hf]
      have ho : (JoiToSwaggerSchema s).isObjectLike = true :=
        omitV_isObjectLike sanitizedKeys (JoiToJSONSchema s)
      show (if (JoiToSwaggerSchema s).isObjectLike then
          omitV sanitizedKeys (JoiToSwaggerSchema s) else JoiToSwaggerSchema s) =
        JoiToSwaggerSchema s
      rw [if_pos ho]
      exact omitV_idem sanitizedKeys (JoiToJSONSchema s)
  · intro n s
    refine ⟨?_, ?_, ?_⟩
    · show getField (omitV sanitizedKeys (.obj
        [("in", .str "path"), ("name", .str n), ("description", .str ""),
         ("type", getField (JoiToSwaggerSchema s) "type"), ("required", .bool true)]))
        "in" = .str "path"
      rw [getField_omitV_obj sanitizedKeys _ "in" rfl]
      have hf : ([("in", JValue.str "path"), ("name", .str n), ("description", .str ""),
          ("type", getField (JoiToSwaggerSchema s) "type"),
          ("required", .bool true)].find? (fun p => p.1 == "in")) =
          some ("in", .str "path") := rfl
      rw [hf]
      rfl
    · show getField (omitV sanitizedKeys (.obj
        [("in", .str "path"), ("name", .str n), ("description", .str ""),
         ("type", getField (JoiToSwaggerSchema s) "type"), ("required", .bool true)]))
        "required" = .bool true
      rw [getField_omitV_obj sanitizedKeys _ "required" rfl]
      have hf : ([("in", JValue.str "path"), ("name", .str n), ("description", .str ""),
          ("type", getField (JoiToSwaggerSchema s) "type"),
          ("required", .bool true)].find? (fun p => p.1 == "required")) =
          some ("required", .bool true) := rfl
      rw [hf]
      rfl
    · show getField (omitV sanitizedKeys (.obj
        [("in", .str "path"), ("name", .str n), ("description", .str ""),
         ("type", getField (JoiToSwaggerSchema s) "type"), ("required", .bool true)]))
        "type" = getField (JoiToSwaggerSchema s) "type"
      rw [getField_omitV_obj sanitizedKeys _ "type" rfl]
      have hf : ([("in", JValue.str "path"), ("name", .str n), ("description", .str ""),
          ("type", getField (JoiToSwaggerSchema s) "type"),
          ("required", .bool true)].find? (fun p => p.1 == "type")) =
          some ("type", getField (JoiToSwaggerSchema s) "type") := rfl
      rw [hf]
      have hb : bannedFreeV sanitizedKeys (JoiToSwaggerSchema s) = true :=
        bannedFree_omitV sanitizedKeys (JoiToJSONSchema s)
      exact omit_noop_of_bannedFree sanitizedKeys _
        (getField_bannedFree sanitizedKeys _ hb "type")
  · intro s h
    simp [presenceRequired, h]

/-- C7 witness: the rules at a concrete schema without flags. -/
theorem parameter_requiredness_witness :
    getField (deepOmit (routeParam "id" ⟨.path, joiSchemaA⟩) sanitizedKeys) "required" =
      .bool true ∧
    getField (deepOmit (routeParam "q" ⟨.query, joiSchemaA⟩) sanitizedKeys) "required" =
      .bool (presenceRequired joiSchemaA) ∧
    getField (deepOmit (nsParam "id" joiSchemaA) sanitizedKeys) "required" = .bool true ∧
    joiSchemaA.presence = none ∧
    presenceRequired joiSchemaA = true :=
  ⟨parameter_requiredness.1 "id" ⟨.path, joiSchemaA⟩ rfl,
   parameter_requiredness.2.1 "q" ⟨.query, joiSchemaA⟩ rfl,
   (parameter_requiredness.2.2.2.1 "id" joiSchemaA).2.1,
   rfl,
   parameter_requiredness.2.2.2.2 joiSchemaA rfl⟩
